import Mathlib

/-!
# Verification of the student-performance analyzer (`capstone.py`)

A shallow embedding of the validation-and-aggregation core of the program:
`validate_mark`, the per-row classification and per-student accumulation loop
of `process_rows`, and the pure (row-producing) part of `write_summary_csv`.

Modelling conventions:
* Python strings are Lean `String`s; `str.strip()` is modelled by `pyStrip`
  (ASCII whitespace).
* Python `float(...)` applied to a marks string is modelled exactly, over ℚ:
  the accepted grammar is optional sign, then `inf` / `infinity` / `nan`
  (case-insensitive) or a decimal literal with optional fractional part and
  exponent, with underscores allowed between digits.  Finite literals are
  given their exact rational value (an exact-arithmetic idealization of the
  IEEE double the program stores).
* The insertion-ordered Python `dict` of accumulators is an association list;
  `sorted(..., key=...)` (a stable sort) is `List.mergeSort`.
-/

namespace Capstone

attribute [local semireducible] Rat.mul Rat.inv Rat.add Rat.sub Rat.ofScientific

/-- One unparsed input row with three text fields (the `RawRecord` of the
spec; in the program, a dict with keys Name/Subject/Marks). -/
structure RawRecord where
  fName : String
  fSubject : String
  fMarks : String
deriving DecidableEq, Repr

/-- One row of the cleaned table (the `ClassifiedRow` of the spec). -/
structure CleanedRow where
  cName : String
  cSubject : String
  cMarks : String
  cStatus : String
  cError : String
deriving DecidableEq, Repr

/-- Per-student accumulator: ordered valid marks and invalid-row count. -/
structure StudentAcc where
  valid_marks : List ℚ
  invalid_count : Nat
deriving DecidableEq, Repr

/-- One row of the summary table (the `SummaryRow` of the spec). -/
structure SummaryRow where
  sName : String
  sAverageMarks : String
  sStatus : String
deriving DecidableEq, Repr

/-- The insertion-ordered accumulator map `students` of `process_rows`. -/
abbrev AccMap := List (String × StudentAcc)

/-- Python `str.strip` with no argument (ASCII whitespace). -/
def pyStrip (s : String) : String :=
  ⟨((s.data.dropWhile Char.isWhitespace).reverse.dropWhile Char.isWhitespace).reverse⟩

/-- Python `str.strip` with the two-character argument semicolon-space,
used at line 144 of the source. -/
def stripSemiSpace (s : String) : String :=
  let p := fun c => c = ';' || c = ' '
  ⟨((s.data.dropWhile p).reverse.dropWhile p).reverse⟩

/-- Python `str.lower` (ASCII case folding, applied characterwise). -/
def pyLower (s : String) : String :=
  ⟨s.data.map Char.toLower⟩

/-- Scan a run of decimal digits in which underscores may appear only between
digits (the CPython rule for numeric literals passed to `float`).  Returns the
accumulated value, the number of digits consumed, and the rest of the input;
`none` on a misplaced underscore. -/
def scanDigits : Nat → Nat → List Char → Option (Nat × Nat × List Char)
  | v, nd, [] => some (v, nd, [])
  | v, nd, '_' :: c :: rest =>
      if 0 < nd ∧ c.isDigit then scanDigits (10 * v + (c.toNat - 48)) (nd + 1) rest
      else none
  | _, _, ['_'] => none
  | v, nd, c :: rest =>
      if c.isDigit then scanDigits (10 * v + (c.toNat - 48)) (nd + 1) rest
      else some (v, nd, c :: rest)

/-- Mantissa of a Python float literal: `digits [. digits]` with at least one
digit overall.  Returns its exact rational value and the unconsumed input. -/
def parseMantissa (cs : List Char) : Option (ℚ × List Char) := do
  let (iv, ind, r1) ← scanDigits 0 0 cs
  match r1 with
  | '.' :: r2 => do
      let (fv, fnd, r3) ← scanDigits 0 0 r2
      if ind + fnd = 0 then none
      else some (((iv * 10 ^ fnd + fv : ℚ) / (10 ^ fnd : ℚ)), r3)
  | _ => if ind = 0 then none else some ((iv : ℚ), r1)

/-- Optional exponent part `((e|E) [sign] digits)` of a Python float literal. -/
def parseExponent (cs : List Char) : Option (ℤ × List Char) :=
  match cs with
  | 'e' :: rest | 'E' :: rest =>
      let sr : ℤ × List Char :=
        match rest with
        | '+' :: r => (1, r)
        | '-' :: r => (-1, r)
        | r => (1, r)
      (do
        let (ev, end1, r3) ← scanDigits 0 0 sr.2
        if end1 = 0 then none else some (sr.1 * (ev : ℤ), r3))
  | _ => some (0, cs)

/-- A finite decimal literal as accepted by Python `float`, valued in ℚ. -/
def parseNumber (cs : List Char) : Option ℚ := do
  let (m, r1) ← parseMantissa cs
  let (e, r2) ← parseExponent r1
  if r2 = [] then some (m * (10 : ℚ) ^ e) else none

/-- Result of Python `float(...)` on a string: a finite rational, or one of
the special values `inf`, `-inf`, `nan`. -/
inductive PyFloat where
  | finite (q : ℚ)
  | posInf
  | negInf
  | nan
deriving DecidableEq, Repr

/-- Python `float(s)` on an already-stripped string: optional sign, then
`inf`/`infinity`/`nan` (case-insensitive) or a decimal literal. -/
def pyFloatOfString (s : String) : Option PyFloat :=
  let cs := s.data
  let sgn : Bool × List Char :=
    match cs with
    | '+' :: r => (false, r)
    | '-' :: r => (true, r)
    | r => (false, r)
  let neg := sgn.1
  let body := sgn.2
  let lower := body.map Char.toLower
  if lower = "inf".data ∨ lower = "infinity".data then
    some (if neg then PyFloat.negInf else PyFloat.posInf)
  else if lower = "nan".data then some PyFloat.nan
  else
    match parseNumber body with
    | some q => some (PyFloat.finite (if neg then -q else q))
    | none => none

/-- Python `0 <= val <= 100` on a float (False whenever `val` is nan; False
for both infinities). -/
def pyInRange : PyFloat → Bool
  | PyFloat.finite q => decide (0 ≤ q ∧ q ≤ 100)
  | _ => false

/-- `validate_mark` (source lines 94–112): returns
`(is_valid, numeric_value_or_None, error_message)`. -/
def validate_mark (mark_str : String) : Bool × Option ℚ × String :=
  let s := pyStrip mark_str
  if s = "" then (false, none, "Missing Marks")
  else
    match pyFloatOfString s with
    | none => (false, none, "Invalid Marks")
    | some (PyFloat.finite q) =>
        if 0 ≤ q ∧ q ≤ 100 then (true, some q, "")
        else (false, none, "Marks Out of Range")
    | some _ => (false, none, "Marks Out of Range")

/-- The `students.setdefault` call of the source (lines 147 and 151):
insert a fresh accumulator at the end iff the key is absent (Python dicts
keep insertion order). -/
def setdefaultAcc (m : AccMap) (k : String) : AccMap :=
  if m.any (fun p => p.1 == k) then m else m ++ [(k, ⟨[], 0⟩)]

/-- Appending one mark to the accumulator of a key (source line 148). -/
def addMark (m : AccMap) (k : String) (v : ℚ) : AccMap :=
  m.map (fun p => if p.1 == k then (p.1, ⟨p.2.valid_marks ++ [v], p.2.invalid_count⟩) else p)

/-- Incrementing the invalid count of the accumulator of a key (line 152). -/
def incInvalid (m : AccMap) (k : String) : AccMap :=
  m.map (fun p => if p.1 == k then (p.1, ⟨p.2.valid_marks, p.2.invalid_count + 1⟩) else p)

/-- The body of the `for r in rows` loop of `process_rows` (source lines
124–162), threading the pair `(cleaned, students)`. -/
def processStep (acc : List CleanedRow × AccMap) (r : RawRecord) : List CleanedRow × AccMap :=
  let cleaned := acc.1
  let students := acc.2
  let name := pyStrip r.fName
  let subject := pyStrip r.fSubject
  let marks := r.fMarks
  let vres := validate_mark marks
  let is_valid := vres.1
  let value := vres.2.1
  let error_msg := vres.2.2
  -- lines 131–137: name presence check and student_key choice
  let st1 : String × String × String :=
    if name = "" then ("Invalid", "Missing Name", "") else ("Valid", "", name)
  let row_status := st1.1
  let error := st1.2.1
  let student_key := st1.2.2
  -- lines 138–144: subject presence check
  let st2 : String × String :=
    if subject = "" then
      if row_status = "Valid" then ("Invalid", "Missing Subject")
      else (row_status, stripSemiSpace (error ++ "; Missing Subject"))
    else (row_status, error)
  let row_status := st2.1
  let error := st2.2
  -- lines 145–155: aggregation and error finalization
  if is_valid && (row_status == "Valid") then
    let students := addMark (setdefaultAcc students student_key) student_key (value.getD 0)
    (cleaned ++ [⟨name, subject, marks, row_status, error⟩], students)
  else
    let students := incInvalid (setdefaultAcc students student_key) student_key
    let error := if error = "" then error_msg else error
    (cleaned ++ [⟨name, subject, marks, "Invalid", error⟩], students)

/-- `process_rows` (source lines 115–163): returns `(cleaned, students)`. -/
def process_rows (rows : List RawRecord) : List CleanedRow × AccMap :=
  rows.foldl processStep ([], [])

/-- Round a rational to the nearest integer, ties to even (the rounding
Python float formatting performs at exactly representable ties). -/
def roundHalfEven (q : ℚ) : ℤ :=
  let f := q.floor
  let r := q - (f : ℚ)
  if r < 1 / 2 then f
  else if 1 / 2 < r then f + 1
  else if f % 2 = 0 then f else f + 1

/-- The Python two-decimal float format of the source (line 195) on a
nonnegative value. -/
def formatFloat2 (q : ℚ) : String :=
  let n := (roundHalfEven (q * 100)).toNat
  toString (n / 100) ++ "." ++ (if n % 100 < 10 then "0" ++ toString (n % 100) else toString (n % 100))

/-- The summary row that `write_summary_csv` (source lines 190–207) writes
for one `(name, data)` pair of the accumulator map. -/
def summaryOfAcc (name : String) (data : StudentAcc) : SummaryRow :=
  let valid_marks := data.valid_marks
  let invalid_count := data.invalid_count
  if valid_marks ≠ [] then
    let avg : ℚ := valid_marks.sum / (valid_marks.length : ℚ)
    let avg_str := formatFloat2 avg
    if invalid_count ≠ 0 then ⟨name, avg_str, "Partial"⟩ else ⟨name, avg_str, "Valid"⟩
  else ⟨name, "N/A", "Invalid"⟩

/-- Lexicographic comparison of character lists by code point — the order
Python uses to compare the (case-folded) sort keys — as a Boolean. -/
def lexLE : List Char → List Char → Bool
  | [], _ => true
  | _ :: _, [] => false
  | c :: cs, d :: ds => if c < d then true else if d < c then false else lexLE cs ds

/-- The sort order of the `sorted` call at source line 190: compare the
case-folded keys.  The `x[0] or ...` guard of the source maps the empty key
to the empty string, i.e. it is the identity on every string key. -/
def summaryLE (a b : String × StudentAcc) : Bool :=
  lexLE (pyLower a.1).data (pyLower b.1).data

/-- The ordered sequence of rows that `write_summary_csv` writes: accumulator
entries stably sorted by case-folded key, each rendered by `summaryOfAcc`. -/
def write_summary_rows (students : AccMap) : List SummaryRow :=
  (students.mergeSort summaryLE).map (fun p => summaryOfAcc p.1 p.2)

/-! ### Derived (specification-side) descriptions of the row transform -/

/-- The aggregation key of a record: the trimmed name, with `""` as the
sentinel for missing names. -/
def keyOf (r : RawRecord) : String :=
  if pyStrip r.fName = "" then "" else pyStrip r.fName

/-- A record passes all three checks: numeric mark in range, and non-empty
trimmed name and subject.  Exactly these records contribute a mark. -/
def fullyValid (r : RawRecord) : Bool :=
  (validate_mark r.fMarks).1 && !(pyStrip r.fName == "") && !(pyStrip r.fSubject == "")

/-- The parsed numeric mark of a record (0 when there is none; only ever
used on records whose mark validates). -/
def valueOf (r : RawRecord) : ℚ :=
  ((validate_mark r.fMarks).2.1).getD 0

/-- The cleaned row `process_rows` emits for a single record (the loop body,
re-expressed as a per-record function). -/
def classify_row (r : RawRecord) : CleanedRow :=
  let name := pyStrip r.fName
  let subject := pyStrip r.fSubject
  let marks := r.fMarks
  let vres := validate_mark marks
  let st1 : String × String :=
    if name = "" then ("Invalid", "Missing Name") else ("Valid", "")
  let st2 : String × String :=
    if subject = "" then
      if st1.1 = "Valid" then ("Invalid", "Missing Subject")
      else (st1.1, stripSemiSpace (st1.2 ++ "; Missing Subject"))
    else st1
  if vres.1 && (st2.1 == "Valid") then ⟨name, subject, marks, st2.1, st2.2⟩
  else ⟨name, subject, marks, "Invalid", if st2.2 = "" then vres.2.2 else st2.2⟩

/-- Lookup in the accumulator map. -/
def lookupAcc (m : AccMap) (k : String) : Option StudentAcc :=
  (m.find? (fun p => p.1 == k)).map (fun p => p.2)

/-- Fold a single record into the accumulator map (the students-component of
the loop body). -/
def foldStudent (m : AccMap) (r : RawRecord) : AccMap :=
  if fullyValid r then addMark (setdefaultAcc m (keyOf r)) (keyOf r) (valueOf r)
  else incInvalid (setdefaultAcc m (keyOf r)) (keyOf r)

/-- The effect of one record on its own key's accumulator. -/
def applyRow (a : StudentAcc) (r : RawRecord) : StudentAcc :=
  if fullyValid r then ⟨a.valid_marks ++ [valueOf r], a.invalid_count⟩
  else ⟨a.valid_marks, a.invalid_count + 1⟩

/-- The accumulator that a list of records builds for key `k`, described
directly: marks of the fully valid records with that key, in order, and the
count of the other records with that key. -/
def accOf (k : String) (rows : List RawRecord) : StudentAcc :=
  ⟨(rows.filter (fun r => keyOf r == k && fullyValid r)).map valueOf,
   (rows.filter (fun r => keyOf r == k && !fullyValid r)).length⟩

/-- Does `pat` occur as a contiguous substring of the char list? -/
def hasSubAux (pat : List Char) : List Char → Bool
  | [] => pat.isEmpty
  | c :: rest => pat.isPrefixOf (c :: rest) || hasSubAux pat rest

/-- Does `pat` occur as a contiguous substring of `hay`? -/
def strContainsSub (hay pat : String) : Bool :=
  hasSubAux pat.data hay.data

/-- The four-way validation outcome of a marks field described by the spec
(section 4.1): Missing, NotNumeric, OutOfRange, or Valid with the value. -/
inductive MarkOutcome where
  | missing
  | notNumeric
  | outOfRange
  | valid (q : ℚ)
deriving DecidableEq, Repr

/-- The outcome the spec assigns to a marks text: trim; empty means Missing;
unparseable means NotNumeric; a parsed value outside the closed interval
0..100 means OutOfRange; otherwise Valid with the parsed value. -/
def markOutcome (s : String) : MarkOutcome :=
  let t := pyStrip s
  if t = "" then MarkOutcome.missing
  else
    match pyFloatOfString t with
    | none => MarkOutcome.notNumeric
    | some (PyFloat.finite q) =>
        if 0 ≤ q ∧ q ≤ 100 then MarkOutcome.valid q else MarkOutcome.outOfRange
    | some _ => MarkOutcome.outOfRange

/-- The triple `validate_mark` is specified to return for each outcome,
with the reason phrase of each failure. -/
def renderOutcome : MarkOutcome → Bool × Option ℚ × String
  | MarkOutcome.missing => (false, none, "Missing Marks")
  | MarkOutcome.notNumeric => (false, none, "Invalid Marks")
  | MarkOutcome.outOfRange => (false, none, "Marks Out of Range")
  | MarkOutcome.valid q => (true, some q, "")

/-- The parsed marks of the rows of a given key whose overall status is
Valid, in input order: the numeric-average input set of the spec. -/
def validMarks (k : String) (rows : List RawRecord) : List ℚ :=
  (rows.filter (fun r => keyOf r == k && (classify_row r).cStatus == "Valid")).map valueOf

/-- The (average, status) pair the summary table shows for key `k`, or
`none` when the key never occurs. -/
def summaryFor (k : String) (rows : List RawRecord) : Option (String × String) :=
  (lookupAcc (process_rows rows).2 k).map
    (fun a => ((summaryOfAcc k a).sAverageMarks, (summaryOfAcc k a).sStatus))

/-! ### Facts about `validate_mark` -/

theorem validate_mark_eq_render (s : String) :
    validate_mark s = renderOutcome (markOutcome s) := by
  unfold validate_mark markOutcome
  by_cases h : pyStrip s = ""
  · simp [h, renderOutcome]
  · simp only [if_neg h]
    cases hp : pyFloatOfString (pyStrip s) with
    | none => simp [renderOutcome]
    | some v =>
      cases v with
      | finite q => by_cases hq : 0 ≤ q ∧ q ≤ 100 <;> simp [hq, renderOutcome]
      | posInf => simp [renderOutcome]
      | negInf => simp [renderOutcome]
      | nan => simp [renderOutcome]

theorem markOutcome_valid_bounds {s : String} {q : ℚ}
    (h : markOutcome s = MarkOutcome.valid q) : 0 ≤ q ∧ q ≤ 100 := by
  simp only [markOutcome] at h
  split at h
  · simp at h
  · split at h
    · simp at h
    · rename_i q0 _
      split at h
      · rename_i hq0
        cases h
        exact hq0
      · simp at h
    · simp at h

theorem validate_false_msg {s : String} (h : (validate_mark s).1 = false) :
    (validate_mark s).2.2 ≠ "" := by
  rw [validate_mark_eq_render] at h ⊢
  cases hm : markOutcome s <;> simp_all [renderOutcome]

theorem validate_true_shape {s : String} (h : (validate_mark s).1 = true) :
    ∃ q, validate_mark s = (true, some q, "") ∧ 0 ≤ q ∧ q ≤ 100 := by
  rw [validate_mark_eq_render] at h ⊢
  cases hm : markOutcome s <;> rw [hm] at h <;> simp_all [renderOutcome]
  exact markOutcome_valid_bounds hm

/-! ### The per-row classification -/

theorem classify_row_eq (r : RawRecord) :
    classify_row r =
      if pyStrip r.fName = "" then
        if pyStrip r.fSubject = "" then
          ⟨pyStrip r.fName, pyStrip r.fSubject, r.fMarks, "Invalid",
            "Missing Name; Missing Subject"⟩
        else
          ⟨pyStrip r.fName, pyStrip r.fSubject, r.fMarks, "Invalid", "Missing Name"⟩
      else if pyStrip r.fSubject = "" then
        ⟨pyStrip r.fName, pyStrip r.fSubject, r.fMarks, "Invalid", "Missing Subject"⟩
      else if (validate_mark r.fMarks).1 then
        ⟨pyStrip r.fName, pyStrip r.fSubject, r.fMarks, "Valid", ""⟩
      else
        ⟨pyStrip r.fName, pyStrip r.fSubject, r.fMarks, "Invalid",
          (validate_mark r.fMarks).2.2⟩ := by
  have hiv : (("Invalid" : String) == "Valid") = false := rfl
  have hvv : (("Valid" : String) == "Valid") = true := rfl
  have hstrip : stripSemiSpace "Missing Name; Missing Subject" =
      "Missing Name; Missing Subject" := rfl
  have hne : (("Missing Name; Missing Subject" : String) = "") ↔ False := by decide
  unfold classify_row
  by_cases hn : pyStrip r.fName = "" <;> by_cases hs : pyStrip r.fSubject = "" <;>
    cases hv : (validate_mark r.fMarks).1 <;>
    simp [hn, hs, hv, hiv, hvv, hstrip, hne]

theorem classify_row_status (r : RawRecord) :
    (classify_row r).cStatus = if fullyValid r then "Valid" else "Invalid" := by
  rw [classify_row_eq]
  unfold fullyValid
  by_cases hn : pyStrip r.fName = "" <;> by_cases hs : pyStrip r.fSubject = "" <;>
    cases hv : (validate_mark r.fMarks).1 <;> simp [hn, hs, hv]

theorem classify_row_fields (r : RawRecord) :
    (classify_row r).cName = pyStrip r.fName ∧
    (classify_row r).cSubject = pyStrip r.fSubject ∧
    (classify_row r).cMarks = r.fMarks := by
  rw [classify_row_eq]
  by_cases hn : pyStrip r.fName = "" <;> by_cases hs : pyStrip r.fSubject = "" <;>
    cases hv : (validate_mark r.fMarks).1 <;> simp [hn, hs, hv]

theorem keyOf_eq_strip (r : RawRecord) : keyOf r = pyStrip r.fName := by
  unfold keyOf
  by_cases hn : pyStrip r.fName = "" <;> simp [hn]

/-! ### The loop body is the row transform paired with the accumulator fold -/

theorem processStep_fst (c : List CleanedRow) (m : AccMap) (r : RawRecord) :
    (processStep (c, m) r).1 = c ++ [classify_row r] := by
  have hiv : (("Invalid" : String) == "Valid") = false := rfl
  have hvv : (("Valid" : String) == "Valid") = true := rfl
  unfold processStep classify_row
  by_cases hn : pyStrip r.fName = "" <;> by_cases hs : pyStrip r.fSubject = "" <;>
    cases hv : (validate_mark r.fMarks).1 <;>
    simp [hn, hs, hv, hiv, hvv]

theorem processStep_snd (c : List CleanedRow) (m : AccMap) (r : RawRecord) :
    (processStep (c, m) r).2 = foldStudent m r := by
  have hiv : (("Invalid" : String) == "Valid") = false := rfl
  have hvv : (("Valid" : String) == "Valid") = true := rfl
  unfold processStep foldStudent fullyValid keyOf valueOf
  by_cases hn : pyStrip r.fName = "" <;> by_cases hs : pyStrip r.fSubject = "" <;>
    cases hv : (validate_mark r.fMarks).1 <;>
    simp [hn, hs, hv, hiv, hvv]

theorem processStep_eq (c : List CleanedRow) (m : AccMap) (r : RawRecord) :
    processStep (c, m) r = (c ++ [classify_row r], foldStudent m r) :=
  Prod.ext_iff.mpr ⟨processStep_fst c m r, processStep_snd c m r⟩

theorem foldl_processStep (rows : List RawRecord) (c : List CleanedRow) (m : AccMap) :
    rows.foldl processStep (c, m) =
      (c ++ rows.map classify_row, rows.foldl foldStudent m) := by
  induction rows generalizing c m with
  | nil => simp
  | cons r rest ih =>
    rw [List.foldl_cons, processStep_eq, ih, List.foldl_cons]
    simp

theorem process_rows_fst (rows : List RawRecord) :
    (process_rows rows).1 = rows.map classify_row := by
  unfold process_rows
  rw [foldl_processStep]
  simp

theorem process_rows_snd (rows : List RawRecord) :
    (process_rows rows).2 = rows.foldl foldStudent [] := by
  unfold process_rows
  rw [foldl_processStep]

/-! ### Lookup in the accumulator map -/

theorem find?_map_keyfix (f : String × StudentAcc → String × StudentAcc)
    (hf : ∀ p, (f p).1 = p.1) (m : AccMap) (k : String) :
    (m.map f).find? (fun p => p.1 == k) = (m.find? (fun p => p.1 == k)).map f := by
  induction m with
  | nil => rfl
  | cons p t ih =>
    by_cases h : (p.1 == k) = true <;>
      simp [List.find?_cons, hf p, h, ih]

theorem lookupAcc_addMark (m : AccMap) (k k1 : String) (v : ℚ) :
    lookupAcc (addMark m k v) k1 =
      (lookupAcc m k1).map
        (fun a => if k1 = k then ⟨a.valid_marks ++ [v], a.invalid_count⟩ else a) := by
  unfold lookupAcc addMark
  rw [find?_map_keyfix _ (fun p => by by_cases h : (p.1 == k) = true <;> simp [h])]
  cases hf : m.find? (fun p => p.1 == k1) with
  | none => simp
  | some p =>
    have hp1 : p.1 = k1 := by simpa using List.find?_some hf
    by_cases h1 : k1 = k <;> simp [hp1, h1]

theorem lookupAcc_incInvalid (m : AccMap) (k k1 : String) :
    lookupAcc (incInvalid m k) k1 =
      (lookupAcc m k1).map
        (fun a => if k1 = k then ⟨a.valid_marks, a.invalid_count + 1⟩ else a) := by
  unfold lookupAcc incInvalid
  rw [find?_map_keyfix _ (fun p => by by_cases h : (p.1 == k) = true <;> simp [h])]
  cases hf : m.find? (fun p => p.1 == k1) with
  | none => simp
  | some p =>
    have hp1 : p.1 = k1 := by simpa using List.find?_some hf
    by_cases h1 : k1 = k <;> simp [hp1, h1]

theorem lookupAcc_setdefault (m : AccMap) (k k1 : String) :
    lookupAcc (setdefaultAcc m k) k1 =
      if k1 = k then some ((lookupAcc m k).getD ⟨[], 0⟩) else lookupAcc m k1 := by
  unfold setdefaultAcc lookupAcc
  by_cases hmem : m.any (fun p => p.1 == k) = true
  · rw [if_pos hmem]
    by_cases h1 : k1 = k
    · subst h1
      rcases List.any_eq_true.mp hmem with ⟨p, hp, hpk⟩
      cases hf : m.find? (fun q => q.1 == k1) with
      | none =>
        rw [List.find?_eq_none] at hf
        exact absurd hpk (hf p hp)
      | some q => simp [hf]
    · simp [h1]
  · rw [if_neg hmem]
    have hnone : m.find? (fun p => p.1 == k) = none := by
      rw [List.find?_eq_none]
      intro p hp hc
      exact hmem (List.any_eq_true.mpr ⟨p, hp, hc⟩)
    rw [List.find?_append]
    by_cases h1 : k1 = k
    · subst h1
      simp [hnone, List.find?]
    · have hkk : (k == k1) = false := beq_eq_false_iff_ne.mpr (Ne.symm h1)
      rw [if_neg h1]
      simp [List.find?, hkk]

theorem lookupAcc_foldStudent (m : AccMap) (r : RawRecord) (k : String) :
    lookupAcc (foldStudent m r) k =
      if k = keyOf r then some (applyRow ((lookupAcc m (keyOf r)).getD ⟨[], 0⟩) r)
      else lookupAcc m k := by
  unfold foldStudent applyRow
  cases hv : fullyValid r
  · rw [if_neg (by simp [hv])]
    rw [lookupAcc_incInvalid, lookupAcc_setdefault]
    by_cases h1 : k = keyOf r <;> simp [h1, hv]
  · rw [if_pos (by simp [hv])]
    rw [lookupAcc_addMark, lookupAcc_setdefault]
    by_cases h1 : k = keyOf r <;> simp [h1, hv]

theorem accOf_cons (k : String) (r : RawRecord) (rows : List RawRecord) :
    accOf k (r :: rows) =
      if (keyOf r == k) = true then
        ⟨(if fullyValid r then [valueOf r] else []) ++ (accOf k rows).valid_marks,
         (if fullyValid r then 0 else 1) + (accOf k rows).invalid_count⟩
      else accOf k rows := by
  unfold accOf
  by_cases hk : (keyOf r == k) = true <;> cases hv : fullyValid r <;>
    simp [hk, hv, List.filter_cons] <;> omega

theorem lookupAcc_foldl (rows : List RawRecord) (m : AccMap) (k : String) :
    lookupAcc (rows.foldl foldStudent m) k =
      match lookupAcc m k with
      | some a => some ⟨a.valid_marks ++ (accOf k rows).valid_marks,
                        a.invalid_count + (accOf k rows).invalid_count⟩
      | none => if rows.any (fun r => keyOf r == k) then some (accOf k rows) else none := by
  induction rows generalizing m with
  | nil =>
    cases h : lookupAcc m k <;> simp [h, accOf]
  | cons r rest ih =>
    rw [List.foldl_cons, ih (foldStudent m r), lookupAcc_foldStudent]
    by_cases hk : k = keyOf r
    · rw [if_pos hk]
      have hk2 : (keyOf r == k) = true := by simp [hk]
      rw [accOf_cons, if_pos hk2, List.any_cons]
      cases hl : lookupAcc m (keyOf r) with
      | some a =>
        rw [hk, hl]
        simp only [Option.getD_some]
        unfold applyRow
        cases hv : fullyValid r <;>
          simp [hv, hk2, List.append_assoc, Nat.add_assoc, Nat.add_comm, Nat.add_left_comm]
      | none =>
        rw [hk, hl]
        simp only [Option.getD_none, hk2, Bool.true_or]
        unfold applyRow
        cases hv : fullyValid r <;> simp [hv]
    · rw [if_neg hk]
      have hk2 : (keyOf r == k) = false := beq_eq_false_iff_ne.mpr (fun h => hk h.symm)
      have hacc : accOf k (r :: rest) = accOf k rest := by
        rw [accOf_cons, if_neg (by simp [hk2])]
      have hany : (r :: rest).any (fun x => keyOf x == k) = rest.any (fun x => keyOf x == k) := by
        rw [List.any_cons, hk2, Bool.false_or]
      rw [hacc, hany]

theorem lookupAcc_process_rows (rows : List RawRecord) (k : String) :
    lookupAcc (process_rows rows).2 k =
      if rows.any (fun r => keyOf r == k) then some (accOf k rows) else none := by
  rw [process_rows_snd, lookupAcc_foldl]
  rfl

/-! ### The summary rows -/

theorem summaryOfAcc_eq (name : String) (a : StudentAcc) :
    summaryOfAcc name a =
      if a.valid_marks = [] then ⟨name, "N/A", "Invalid"⟩
      else ⟨name, formatFloat2 (a.valid_marks.sum / (a.valid_marks.length : ℚ)),
            if a.invalid_count = 0 then "Valid" else "Partial"⟩ := by
  unfold summaryOfAcc
  by_cases he : a.valid_marks = [] <;> by_cases hc : a.invalid_count = 0 <;>
    simp [he, hc]

theorem summaryOfAcc_congr {n : String} {a b : StudentAcc}
    (hs : a.valid_marks.sum = b.valid_marks.sum)
    (hl : a.valid_marks.length = b.valid_marks.length)
    (hc : a.invalid_count = b.invalid_count) :
    summaryOfAcc n a = summaryOfAcc n b := by
  have he : (a.valid_marks = []) ↔ (b.valid_marks = []) := by
    rw [← List.length_eq_zero, ← List.length_eq_zero, hl]
  rw [summaryOfAcc_eq, summaryOfAcc_eq, hs, hl, hc]
  exact if_congr he rfl rfl

theorem summaryOfAcc_name (name : String) (a : StudentAcc) :
    (summaryOfAcc name a).sName = name := by
  rw [summaryOfAcc_eq]
  by_cases he : a.valid_marks = [] <;> simp [he]

/-! ### Keys of the accumulator map -/

theorem keys_map_keyfix (f : String × StudentAcc → String × StudentAcc)
    (hf : ∀ p, (f p).1 = p.1) (m : AccMap) :
    (m.map f).map Prod.fst = m.map Prod.fst := by
  induction m with
  | nil => rfl
  | cons p t ih => simp [hf p, ih]

theorem keys_setdefault_nodup (m : AccMap) (k : String)
    (hm : (m.map Prod.fst).Nodup) : ((setdefaultAcc m k).map Prod.fst).Nodup := by
  unfold setdefaultAcc
  by_cases h : m.any (fun p => p.1 == k) = true
  · simpa [h] using hm
  · rw [if_neg h, List.map_append]
    refine List.Nodup.append hm (by simp) ?_
    intro a ham hak
    simp only [List.map_cons, List.map_nil, List.mem_singleton] at hak
    subst hak
    rcases List.mem_map.mp ham with ⟨p, hp, hpk⟩
    exact h (List.any_eq_true.mpr ⟨p, hp, by simp [hpk]⟩)

theorem keys_foldStudent_nodup (m : AccMap) (r : RawRecord)
    (hm : (m.map Prod.fst).Nodup) : ((foldStudent m r).map Prod.fst).Nodup := by
  unfold foldStudent addMark incInvalid
  have hsd := keys_setdefault_nodup m (keyOf r) hm
  cases hv : fullyValid r <;>
    simp only [if_pos, if_neg, Bool.false_eq_true, ite_false, ite_true] <;>
    rw [keys_map_keyfix _ (fun p => by by_cases h : (p.1 == keyOf r) = true <;> simp [h])] <;>
    exact hsd

theorem keys_process_rows_nodup (rows : List RawRecord) :
    ((process_rows rows).2.map Prod.fst).Nodup := by
  rw [process_rows_snd]
  have hgen : ∀ (m : AccMap), (m.map Prod.fst).Nodup →
      ((rows.foldl foldStudent m).map Prod.fst).Nodup := by
    induction rows with
    | nil => intro m hm; exact hm
    | cons r rest ih =>
      intro m hm
      rw [List.foldl_cons]
      exact ih _ (keys_foldStudent_nodup m r hm)
  exact hgen [] (by simp)

/-! ### The stable sort of the report builder -/

theorem lexLE_iff_not_lt : ∀ (xs ys : List Char), lexLE xs ys = true ↔ ¬ List.lt ys xs
  | [], [] => by
      simp only [lexLE]
      constructor
      · intro _ h
        cases h
      · intro _
        trivial
  | [], y :: ys => by
      simp only [lexLE]
      constructor
      · intro _ h
        cases h
      · intro _
        trivial
  | x :: xs, [] => by
      simp only [lexLE]
      constructor
      · intro h
        cases h
      · intro h
        exact absurd (List.lt.nil x xs) h
  | x :: xs, y :: ys => by
      simp only [lexLE]
      by_cases hxy : x < y
      · rw [if_pos hxy]
        constructor
        · intro _ h
          cases h with
          | head _ _ hyx => exact absurd hxy (lt_asymm hyx)
          | tail h1 h2 _ => exact h2 hxy
        · intro _
          trivial
      · rw [if_neg hxy]
        by_cases hyx : y < x
        · rw [if_pos hyx]
          constructor
          · intro h
            cases h
          · intro h
            exact absurd (List.lt.head ys xs hyx) h
        · rw [if_neg hyx]
          rw [lexLE_iff_not_lt xs ys]
          constructor
          · intro h hlt
            cases hlt with
            | head _ _ h3 => exact hyx h3
            | tail _ _ h3 => exact h h3
          · intro h hlt
            exact h (List.lt.tail hyx hxy hlt)

theorem summaryLE_iff (a b : String × StudentAcc) :
    summaryLE a b = true ↔ pyLower a.1 ≤ pyLower b.1 := by
  unfold summaryLE
  rw [lexLE_iff_not_lt]
  have h1 : pyLower b.1 < pyLower a.1 ↔
      List.lt (pyLower b.1).data (pyLower a.1).data := by
    rw [String.lt_iff_toList_lt]
    exact (List.lt_iff_lex_lt _ _).symm
  constructor
  · intro h hlt
    exact h (h1.mp hlt)
  · intro h hlt
    exact h (h1.mpr hlt)

theorem summaryLE_trans (a b c : String × StudentAcc) :
    summaryLE a b → summaryLE b c → summaryLE a c := by
  intro h1 h2
  rw [summaryLE_iff] at h1 h2 ⊢
  exact le_trans h1 h2

theorem summaryLE_total (a b : String × StudentAcc) :
    summaryLE a b || summaryLE b a := by
  rw [Bool.or_eq_true, summaryLE_iff, summaryLE_iff]
  exact le_total _ _

theorem mergeSort_filter_class (students : AccMap) (c : String) :
    (students.mergeSort summaryLE).filter (fun p => pyLower p.1 == c) =
      students.filter (fun p => pyLower p.1 == c) := by
  have hpair : (students.filter (fun p => pyLower p.1 == c)).Pairwise
      (fun a b => summaryLE a b = true) := by
    apply List.pairwise_of_forall_mem_list
    intro a ha b hb
    have ha2 : (pyLower a.1 == c) = true := (List.mem_filter.mp ha).2
    have hb2 : (pyLower b.1 == c) = true := (List.mem_filter.mp hb).2
    rw [beq_iff_eq] at ha2 hb2
    rw [summaryLE_iff, ha2, hb2]
  have hsub : List.Sublist (students.filter (fun p => pyLower p.1 == c))
      (students.mergeSort summaryLE) :=
    List.sublist_mergeSort summaryLE_trans summaryLE_total hpair
      (List.filter_sublist students)
  have hsub2 : List.Sublist (students.filter (fun p => pyLower p.1 == c))
      ((students.mergeSort summaryLE).filter (fun p => pyLower p.1 == c)) := by
    have hself : (students.filter (fun p => pyLower p.1 == c)).filter
        (fun p => pyLower p.1 == c) = students.filter (fun p => pyLower p.1 == c) :=
      List.filter_eq_self.mpr (fun a ha => (List.mem_filter.mp ha).2)
    have h3 := hsub.filter (fun p => pyLower p.1 == c)
    rwa [hself] at h3
  have hperm : ((students.mergeSort summaryLE).filter (fun p => pyLower p.1 == c)).Perm
      (students.filter (fun p => pyLower p.1 == c)) :=
    (List.mergeSort_perm students summaryLE).filter _
  exact (hsub2.eq_of_length hperm.length_eq.symm).symm

/-! ### Bounds on averages -/

theorem valueOf_bounds {r : RawRecord} (h : (validate_mark r.fMarks).1 = true) :
    0 ≤ valueOf r ∧ valueOf r ≤ 100 := by
  rcases validate_true_shape h with ⟨q, hq, h0, h100⟩
  unfold valueOf
  rw [hq]
  exact ⟨h0, h100⟩

theorem fullyValid_validate {r : RawRecord} (h : fullyValid r = true) :
    (validate_mark r.fMarks).1 = true := by
  unfold fullyValid at h
  simp only [Bool.and_eq_true] at h
  exact h.1.1

theorem avg_bounds {l : List ℚ} (h : ∀ v ∈ l, 0 ≤ v ∧ v ≤ 100) (hne : l ≠ []) :
    0 ≤ l.sum / (l.length : ℚ) ∧ l.sum / (l.length : ℚ) ≤ 100 := by
  have hlen : 0 < (l.length : ℚ) := by
    exact_mod_cast List.length_pos.mpr hne
  constructor
  · exact div_nonneg (List.sum_nonneg (fun v hv => (h v hv).1)) hlen.le
  · rw [div_le_iff hlen]
    calc l.sum ≤ l.length • (100 : ℚ) :=
          List.sum_le_card_nsmul l 100 (fun x hx => (h x hx).2)
    _ = 100 * l.length := by rw [nsmul_eq_mul]; ring

/-! ### Claim theorems -/

/-- C2: a record's mark is appended to its accumulator's valid-mark sequence
iff its marks validate and trimmed name and subject are non-empty; otherwise
the record increments that accumulator's invalid count; every record is
routed to exactly one accumulator, keyed by its trimmed name with the empty
string as the missing-name sentinel (`keyOf`). -/
theorem C2_routing_and_contribution (rows : List RawRecord) (k : String) :
    lookupAcc (process_rows rows).2 k =
      if rows.any (fun r => keyOf r == k) then
        some ⟨(rows.filter (fun r => keyOf r == k && fullyValid r)).map valueOf,
              (rows.filter (fun r => keyOf r == k && !fullyValid r)).length⟩
      else none := by
  rw [lookupAcc_process_rows]
  rfl

/-- C3: a summary row's status is Invalid iff the valid-mark sequence is
empty (average rendered as the sentinel N/A), Valid iff non-empty with zero
invalid count, Partial iff non-empty with positive invalid count; when
non-empty the average is the arithmetic mean formatted to two decimals, and
marks 80 and 90 with one invalid row yield the pair 85.00 / Partial. -/
theorem C3_summary_status_and_average (name : String) (a : StudentAcc) :
    ((summaryOfAcc name a).sStatus = "Invalid" ↔ a.valid_marks = []) ∧
    ((summaryOfAcc name a).sStatus = "Valid" ↔
      a.valid_marks ≠ [] ∧ a.invalid_count = 0) ∧
    ((summaryOfAcc name a).sStatus = "Partial" ↔
      a.valid_marks ≠ [] ∧ 0 < a.invalid_count) ∧
    (summaryOfAcc name a).sAverageMarks =
      (if a.valid_marks = [] then "N/A"
       else formatFloat2 (a.valid_marks.sum / (a.valid_marks.length : ℚ))) ∧
    summaryOfAcc "Dana" ⟨[80, 90], 1⟩ = ⟨"Dana", "85.00", "Partial"⟩ := by
  have d1 : ("Valid" : String) ≠ "Invalid" := by decide
  have d2 : ("Partial" : String) ≠ "Invalid" := by decide
  have d3 : ("Invalid" : String) ≠ "Valid" := by decide
  have d4 : ("Partial" : String) ≠ "Valid" := by decide
  have d5 : ("Invalid" : String) ≠ "Partial" := by decide
  have d6 : ("Valid" : String) ≠ "Partial" := by decide
  refine ⟨?_, ?_, ?_, ?_, by decide⟩ <;>
    rw [summaryOfAcc_eq] <;>
    by_cases he : a.valid_marks = [] <;> by_cases hc : a.invalid_count = 0 <;>
      simp [he, hc, d1, d2, d3, d4, d5, d6] <;> omega

/-- C4: `validate_mark` trims, then returns exactly one of the four spec
outcomes — Missing (reason Missing Marks) on empty input, NotNumeric (reason
Invalid Marks) on unparseable input, OutOfRange (reason Marks Out of Range)
on a parsed value outside the closed interval 0..100 (including the float
special values, which never satisfy the range check), and otherwise Valid
with the parsed value and empty error text. -/
theorem C4_validate_mark_outcomes (s : String) (q : ℚ) :
    validate_mark s = renderOutcome (markOutcome s) ∧
    (markOutcome s = MarkOutcome.missing ↔ pyStrip s = "") ∧
    (markOutcome s = MarkOutcome.notNumeric ↔
      pyStrip s ≠ "" ∧ pyFloatOfString (pyStrip s) = none) ∧
    (markOutcome s = MarkOutcome.valid q ↔
      pyStrip s ≠ "" ∧ pyFloatOfString (pyStrip s) = some (PyFloat.finite q) ∧
      0 ≤ q ∧ q ≤ 100) ∧
    (markOutcome s = MarkOutcome.outOfRange ↔
      pyStrip s ≠ "" ∧ ∃ v, pyFloatOfString (pyStrip s) = some v ∧ pyInRange v = false) := by
  refine ⟨validate_mark_eq_render s, ?_, ?_, ?_, ?_⟩ <;>
    simp only [markOutcome, pyInRange] <;>
    by_cases ht : pyStrip s = "" <;> simp only [ht, if_pos, if_neg, ite_true, ite_false] <;>
    try simp [ht]
  all_goals
    cases hp : pyFloatOfString (pyStrip s) with
    | none => simp [ht]
    | some v =>
      cases v with
      | finite q0 =>
        by_cases hq0 : 0 ≤ q0 ∧ q0 ≤ 100 <;> simp [ht, hq0] <;>
          first
            | (rintro rfl; exact hq0)
            | (rintro rfl h0; exact not_le.mp fun hle => hq0 ⟨h0, hle⟩)
            | (intro h0; exact not_le.mp fun hle => hq0 ⟨h0, hle⟩)
      | posInf => simp [ht]
      | negInf => simp [ht]
      | nan => simp [ht]

/-- C5: after folding all rows, each accumulator's invalid count equals the
number of cleaned rows carrying that key (the row's trimmed name) whose
status is Invalid. -/
theorem C5_invalid_count (rows : List RawRecord) (k : String) (a : StudentAcc)
    (h : lookupAcc (process_rows rows).2 k = some a) :
    a.invalid_count =
      ((process_rows rows).1.filter
        (fun c => c.cName == k && c.cStatus == "Invalid")).length := by
  rw [lookupAcc_process_rows] at h
  by_cases hany : rows.any (fun r => keyOf r == k)
  · rw [if_pos hany] at h
    cases h
    rw [process_rows_fst, List.filter_map, List.length_map]
    unfold accOf
    dsimp only
    congr 1
    apply List.filter_congr
    intro r _
    have h1 : (classify_row r).cName = keyOf r := by
      rw [(classify_row_fields r).1, keyOf_eq_strip]
    simp only [Function.comp_apply, h1, classify_row_status]
    cases hv : fullyValid r <;> simp [hv]
  · rw [if_neg hany] at h
    cases h

/-- C8: the classify-and-fold transform is total (it is a function on all
record lists), produces exactly one cleaned row per input record in input
order, copies the input fields (trimmed name and subject, marks verbatim)
into the output row so that validation findings live only in the Error
field, and classifies even the all-empty record without faulting. -/
theorem C8_total_and_ordered (rows : List RawRecord) :
    (process_rows rows).1 = rows.map classify_row ∧
    (process_rows rows).1.length = rows.length ∧
    (∀ r : RawRecord,
      (classify_row r).cName = pyStrip r.fName ∧
      (classify_row r).cSubject = pyStrip r.fSubject ∧
      (classify_row r).cMarks = r.fMarks) ∧
    classify_row ⟨"", "", ""⟩ =
      ⟨"", "", "", "Invalid", "Missing Name; Missing Subject"⟩ := by
  refine ⟨process_rows_fst rows, ?_, classify_row_fields, by decide⟩
  rw [process_rows_fst, List.length_map]

/-- C1 (counterexample): for the record with empty name, subject Science and
marks text abc, the marks outcome is NotNumeric, yet the emitted Error text
is exactly Missing Name — the marks reason phrase Invalid Marks does not
occur in it, so the reasons are not concatenated as the claim states (the
source only stores the marks reason when no presence reason fired, lines
153–154). -/
theorem C1_counterexample :
    (process_rows [⟨"", "Science", "abc"⟩]).1 =
      [⟨"", "Science", "abc", "Invalid", "Missing Name"⟩] ∧
    validate_mark "abc" = (false, none, "Invalid Marks") ∧
    strContainsSub "Missing Name" "Invalid Marks" = false := by
  exact ⟨by decide, by decide, by decide⟩

/-- C1 (amended): when the marks outcome is not Valid, the Error text is the
marks reason exactly when both presence checks pass; when a presence finding
fired, the Error text consists of the presence reasons only (Missing Name
before Missing Subject, joined by semicolon-space) and the marks reason is
dropped. -/
theorem C1_amended_error_composition (r : RawRecord)
    (h : (validate_mark r.fMarks).1 = false) :
    (classify_row r).cError =
      if pyStrip r.fName ≠ "" ∧ pyStrip r.fSubject ≠ "" then
        (validate_mark r.fMarks).2.2
      else
        String.intercalate "; "
          ((if pyStrip r.fName = "" then ["Missing Name"] else []) ++
           (if pyStrip r.fSubject = "" then ["Missing Subject"] else [])) := by
  have h1 : String.intercalate "; " ["Missing Name", "Missing Subject"] =
      "Missing Name; Missing Subject" := by decide
  have h2 : String.intercalate "; " ["Missing Name"] = "Missing Name" := by decide
  have h3 : String.intercalate "; " ["Missing Subject"] = "Missing Subject" := by decide
  rw [classify_row_eq]
  by_cases hn : pyStrip r.fName = "" <;> by_cases hs : pyStrip r.fSubject = "" <;>
    simp [hn, hs, h, h1, h2, h3]

/-- C1 (witness for the amended theorem): the counterexample record
instantiates it — marks abc fail validation and the Error is the presence
reason alone. -/
theorem C1_witness :
    (validate_mark (RawRecord.mk "" "Science" "abc").fMarks).1 = false ∧
    (classify_row (RawRecord.mk "" "Science" "abc")).cError =
      (if pyStrip (RawRecord.mk "" "Science" "abc").fName ≠ "" ∧
          pyStrip (RawRecord.mk "" "Science" "abc").fSubject ≠ "" then
        (validate_mark (RawRecord.mk "" "Science" "abc").fMarks).2.2
      else
        String.intercalate "; "
          ((if pyStrip (RawRecord.mk "" "Science" "abc").fName = "" then
              ["Missing Name"] else []) ++
           (if pyStrip (RawRecord.mk "" "Science" "abc").fSubject = "" then
              ["Missing Subject"] else []))) :=
  ⟨by decide, C1_amended_error_composition ⟨"", "Science", "abc"⟩ (by decide)⟩

/-- C9: a cleaned row's Error field is non-empty exactly when its Status is
Invalid. -/
theorem C9_error_iff_invalid (rows : List RawRecord) (c : CleanedRow)
    (h : c ∈ (process_rows rows).1) :
    c.cError ≠ "" ↔ c.cStatus = "Invalid" := by
  rw [process_rows_fst] at h
  rcases List.mem_map.mp h with ⟨r, _, rfl⟩
  have d1 : ("Missing Name; Missing Subject" : String) ≠ "" := by decide
  have d2 : ("Missing Name" : String) ≠ "" := by decide
  have d3 : ("Missing Subject" : String) ≠ "" := by decide
  have d4 : ("Valid" : String) ≠ "Invalid" := by decide
  rw [classify_row_eq]
  by_cases hn : pyStrip r.fName = "" <;> by_cases hs : pyStrip r.fSubject = "" <;>
    cases hv : (validate_mark r.fMarks).1 <;>
    simp [hn, hs, hv, d1, d2, d3, d4]
  exact validate_false_msg hv

/-- C9 (witness): the all-empty record yields an Invalid row whose Error is
non-empty. -/
theorem C9_witness :
    (⟨"", "", "", "Invalid", "Missing Name; Missing Subject"⟩ : CleanedRow) ∈
      (process_rows [⟨"", "", ""⟩]).1 ∧
    ((⟨"", "", "", "Invalid", "Missing Name; Missing Subject"⟩ : CleanedRow).cError ≠ "" ↔
      (⟨"", "", "", "Invalid", "Missing Name; Missing Subject"⟩ : CleanedRow).cStatus =
        "Invalid") :=
  ⟨by decide, C9_error_iff_invalid [⟨"", "", ""⟩] _ (by decide)⟩

/-- C10: every mark stored in an accumulator's valid-mark sequence lies in
the closed interval 0..100, and therefore so does the numeric average of
every non-empty sequence. -/
theorem C10_marks_in_range (rows : List RawRecord) (k : String) (a : StudentAcc)
    (h : lookupAcc (process_rows rows).2 k = some a) :
    (∀ v ∈ a.valid_marks, 0 ≤ v ∧ v ≤ 100) ∧
    (a.valid_marks ≠ [] →
      0 ≤ a.valid_marks.sum / (a.valid_marks.length : ℚ) ∧
      a.valid_marks.sum / (a.valid_marks.length : ℚ) ≤ 100) := by
  rw [lookupAcc_process_rows] at h
  by_cases hany : rows.any (fun r => keyOf r == k)
  · rw [if_pos hany] at h
    cases h
    have hmem : ∀ v ∈ (accOf k rows).valid_marks, 0 ≤ v ∧ v ≤ 100 := by
      intro v hv
      unfold accOf at hv
      dsimp only at hv
      rcases List.mem_map.mp hv with ⟨r, hr, rfl⟩
      have hfv : fullyValid r = true := by
        have := (List.mem_filter.mp hr).2
        simp only [Bool.and_eq_true] at this
        exact this.2
      exact valueOf_bounds (fullyValid_validate hfv)
    exact ⟨hmem, fun hne => avg_bounds hmem hne⟩
  · rw [if_neg hany] at h
    cases h

/-- C10 (witness): the single record with mark 85 gives the accumulator with
list containing 85 and the bounds hold. -/
theorem C10_witness :
    lookupAcc (process_rows [⟨"A", "M", "85"⟩]).2 "A" = some ⟨[85], 0⟩ ∧
    ((∀ v ∈ (⟨[85], 0⟩ : StudentAcc).valid_marks, 0 ≤ v ∧ v ≤ 100) ∧
      ((⟨[85], 0⟩ : StudentAcc).valid_marks ≠ [] →
        0 ≤ (⟨[85], 0⟩ : StudentAcc).valid_marks.sum /
            ((⟨[85], 0⟩ : StudentAcc).valid_marks.length : ℚ) ∧
        (⟨[85], 0⟩ : StudentAcc).valid_marks.sum /
            ((⟨[85], 0⟩ : StudentAcc).valid_marks.length : ℚ) ≤ 100)) :=
  ⟨by decide, C10_marks_in_range [⟨"A", "M", "85"⟩] "A" ⟨[85], 0⟩ (by decide)⟩

/-- C5 (witness): a single missing-subject row for Bob gives invalid count 1,
which equals the number of Invalid cleaned rows keyed Bob. -/
theorem C5_witness :
    lookupAcc (process_rows [⟨"Bob", "", "70"⟩]).2 "Bob" = some ⟨[], 1⟩ ∧
    (⟨[], 1⟩ : StudentAcc).invalid_count =
      ((process_rows [⟨"Bob", "", "70"⟩]).1.filter
        (fun c => c.cName == "Bob" && c.cStatus == "Invalid")).length :=
  ⟨by decide, C5_invalid_count [⟨"Bob", "", "70"⟩] "Bob" ⟨[], 1⟩ (by decide)⟩

theorem valid_marks_eq_validMarks (rows : List RawRecord) (k : String) :
    (accOf k rows).valid_marks = validMarks k rows := by
  have hiv : (("Invalid" : String) == "Valid") = false := rfl
  have hvv : (("Valid" : String) == "Valid") = true := rfl
  unfold accOf validMarks
  dsimp only
  congr 1
  apply List.filter_congr
  intro r _
  rw [classify_row_status]
  cases hv : fullyValid r <;> simp [hv, hiv, hvv]

theorem accOf_filter_key (k : String) (rows : List RawRecord) :
    accOf k rows =
      ⟨((rows.filter (fun r => keyOf r == k)).filter (fun r => fullyValid r)).map valueOf,
       ((rows.filter (fun r => keyOf r == k)).filter (fun r => !fullyValid r)).length⟩ := by
  unfold accOf
  rw [List.filter_filter, List.filter_filter]
  rw [List.filter_congr (fun r _ => Bool.and_comm (keyOf r == k) (fullyValid r)),
      List.filter_congr (fun r _ => Bool.and_comm (keyOf r == k) (!fullyValid r))]

/-- C6: the summary table has one row per distinct student key (the rendered
names are a permutation of the accumulator keys, which are nodup), rows are
ordered by case-insensitive comparison of the key, entries whose keys
compare equal case-insensitively keep their insertion order (the sort leaves
every case-fold class untouched), and on a concrete sorted-by-insertion
example the empty sentinel key comes first with the Alice/alice tie in
first-insertion order. -/
theorem C6_summary_ordering (students : AccMap) (rows : List RawRecord) :
    ((write_summary_rows students).map SummaryRow.sName).Perm (students.map Prod.fst) ∧
    (write_summary_rows students).Pairwise
      (fun a b => pyLower a.sName ≤ pyLower b.sName) ∧
    (∀ c, (students.mergeSort summaryLE).filter (fun p => pyLower p.1 == c) =
      students.filter (fun p => pyLower p.1 == c)) ∧
    ((process_rows rows).2.map Prod.fst).Nodup ∧
    write_summary_rows
        [("", ⟨[], 1⟩), ("Alice", ⟨[80], 0⟩), ("alice", ⟨[90], 0⟩), ("bob", ⟨[70], 0⟩)] =
      [⟨"", "N/A", "Invalid"⟩, ⟨"Alice", "80.00", "Valid"⟩,
       ⟨"alice", "90.00", "Valid"⟩, ⟨"bob", "70.00", "Valid"⟩] := by
  have hnames : (write_summary_rows students).map SummaryRow.sName =
      (students.mergeSort summaryLE).map Prod.fst := by
    unfold write_summary_rows
    rw [List.map_map]
    exact List.map_congr_left (fun p _ => summaryOfAcc_name p.1 p.2)
  refine ⟨?_, ?_, mergeSort_filter_class students, keys_process_rows_nodup rows, ?_⟩
  · rw [hnames]
    exact (List.mergeSort_perm students summaryLE).map Prod.fst
  · unfold write_summary_rows
    rw [List.pairwise_map]
    apply List.Pairwise.imp ?_ (List.sorted_mergeSort summaryLE_trans summaryLE_total students)
    intro a b hab
    rw [summaryOfAcc_name, summaryOfAcc_name]
    exact (summaryLE_iff a b).mp hab
  · unfold write_summary_rows
    rw [List.mergeSort_of_sorted (by decide)]
    decide

/-- C7: the summary entry of a key depends only on the multiset of rows
carrying that key — permuting them changes neither the average text nor the
status — and the accumulator's valid-mark sequence is exactly the parsed
marks of that key's status-Valid rows, so the shown average is the formatted
arithmetic mean of exactly those marks. -/
theorem C7_permutation_invariance (rows1 rows2 : List RawRecord) (k : String)
    (h : (rows1.filter (fun r => keyOf r == k)).Perm
         (rows2.filter (fun r => keyOf r == k))) :
    summaryFor k rows1 = summaryFor k rows2 ∧
    (lookupAcc (process_rows rows1).2 k).map StudentAcc.valid_marks =
      (if rows1.any (fun r => keyOf r == k) then some (validMarks k rows1) else none) ∧
    (lookupAcc (process_rows rows1).2 k).map (fun a => (summaryOfAcc k a).sAverageMarks) =
      (if rows1.any (fun r => keyOf r == k) then
        some (if validMarks k rows1 = [] then "N/A"
              else formatFloat2
                ((validMarks k rows1).sum / ((validMarks k rows1).length : ℚ)))
       else none) := by
  have hvalp : ((accOf k rows1).valid_marks).Perm ((accOf k rows2).valid_marks) := by
    rw [accOf_filter_key, accOf_filter_key]
    exact (h.filter _).map _
  have hcnt : (accOf k rows1).invalid_count = (accOf k rows2).invalid_count := by
    rw [accOf_filter_key, accOf_filter_key]
    exact (h.filter _).length_eq
  have hany : (rows1.any fun r => keyOf r == k) = (rows2.any fun r => keyOf r == k) := by
    apply Bool.eq_iff_iff.mpr
    rw [List.any_eq_true, List.any_eq_true]
    constructor
    · rintro ⟨x, hx, hpx⟩
      rcases List.mem_filter.mp (h.mem_iff.mp (List.mem_filter.mpr ⟨hx, hpx⟩)) with ⟨hx2, hpx2⟩
      exact ⟨x, hx2, hpx2⟩
    · rintro ⟨x, hx, hpx⟩
      rcases List.mem_filter.mp (h.mem_iff.mpr (List.mem_filter.mpr ⟨hx, hpx⟩)) with ⟨hx2, hpx2⟩
      exact ⟨x, hx2, hpx2⟩
  refine ⟨?_, ?_, ?_⟩
  · unfold summaryFor
    rw [lookupAcc_process_rows, lookupAcc_process_rows, hany]
    by_cases hany2 : rows2.any (fun r => keyOf r == k)
    · rw [if_pos hany2, if_pos hany2]
      have hacc : summaryOfAcc k (accOf k rows1) = summaryOfAcc k (accOf k rows2) :=
        summaryOfAcc_congr hvalp.sum_eq hvalp.length_eq hcnt
      simp only [Option.map_some']
      rw [hacc]
    · rw [if_neg hany2, if_neg hany2]
  · rw [lookupAcc_process_rows]
    by_cases hany1 : rows1.any (fun r => keyOf r == k) <;>
      simp [hany1, valid_marks_eq_validMarks]
  · rw [lookupAcc_process_rows]
    by_cases hany1 : rows1.any (fun r => keyOf r == k)
    · rw [if_pos hany1, if_pos hany1]
      simp only [Option.map_some']
      rw [summaryOfAcc_eq, valid_marks_eq_validMarks]
      by_cases he : validMarks k rows1 = [] <;> simp [he]
    · rw [if_neg hany1, if_neg hany1]
      rfl

/-- C7 (witness): reordering the two Alice rows leaves the summary entry for
key A unchanged. -/
theorem C7_witness :
    ([RawRecord.mk "A" "M" "80", ⟨"B", "M", "50"⟩, ⟨"A", "M", "90"⟩].filter
        (fun r => keyOf r == "A")).Perm
      ([RawRecord.mk "A" "M" "90", ⟨"A", "M", "80"⟩].filter (fun r => keyOf r == "A")) ∧
    summaryFor "A" [RawRecord.mk "A" "M" "80", ⟨"B", "M", "50"⟩, ⟨"A", "M", "90"⟩] =
      summaryFor "A" [RawRecord.mk "A" "M" "90", ⟨"A", "M", "80"⟩] :=
  ⟨by decide,
   (C7_permutation_invariance [⟨"A", "M", "80"⟩, ⟨"B", "M", "50"⟩, ⟨"A", "M", "90"⟩]
      [⟨"A", "M", "90"⟩, ⟨"A", "M", "80"⟩] "A" (by decide)).1⟩

end Capstone
